import Mathlib

/-
Verification of the FixedMerkleTree core (core/util/fixed_merkle_tree.go).

Shallow embedding conventions:
* Bytes are modelled as `Nat`, byte buffers as `List Nat`.
* A leaf's sha3 accumulator is modelled by the list of bytes absorbed so far;
  the digest of a leaf is `lh` applied to that list, where `lh` abstracts
  `sha3.New256`'s finalization (`h.Sum(nil)`).
* `MHashBytes`, the two-input node combinator, lives outside the shown source;
  all theorems are parametric in it (`mh`).
* The Go `writeBytes` buffer has fixed capacity 65536 with `writeCount` valid
  bytes; the model keeps exactly the valid prefix in `writeBytes` (the bytes
  beyond `writeCount` are never read by the source).
* `sync.Mutex` is modelled sequentially by the `lockHeld` flag: locking an
  already-held (non-reentrant) mutex from the single caller blocks forever,
  which the step functions report as `none`.
-/

namespace FMT

def MerkleChunkSize : Nat := 64

def MaxMerkleLeavesSize : Nat := 64 * 1024

def FixedMerkleLeaves : Nat := 1024

def FixedMTDepth : Nat := 11

/-- State of a `FixedMerkleTree` object: the per-leaf accumulated byte
sequences, the `isFinal` flag, the staged byte count and staged bytes, the
cached root, and the mutex state. -/
@[ext]
structure FMTState where
  leaves : List (List Nat)
  isFinal : Bool
  writeCount : Nat
  writeBytes : List Nat
  merkleRoot : Option (List Nat)
  lockHeld : Bool
  deriving DecidableEq, Repr

/-- Digest of a leaf accumulator (`leaf.GetHashBytes`): the abstract hash `lh`
of every byte written to the leaf so far. -/
def GetHashBytes (lh : List Nat → List Nat) (acc : List Nat) : List Nat := lh acc

/-- Fresh leaf slots (`initLeaves`): 1024 empty accumulators. -/
def initLeaves : List (List Nat) := List.replicate FixedMerkleLeaves []

/-- Fresh tree (`NewFixedMerkleTree`). -/
def NewFixedMerkleTree : FMTState :=
  { leaves := initLeaves
    isFinal := false
    writeCount := 0
    writeBytes := []
    merkleRoot := none
    lockHeld := false }

/-- Chunk-dispatch loop inside `writeToLeaves`: feed consecutive
`MerkleChunkSize`-byte chunks of `b` to `Leaves[leafInd]`, `Leaves[leafInd+1]`,
dots. A `List.set` out of range is a no-op; the Go code never reaches that
case because `writeToLeaves` only receives windows of at most 65536 bytes. -/
def writeChunksAux (leaves : List (List Nat)) (leafInd : Nat) (b : List Nat) :
    List (List Nat) :=
  if h : b = [] then leaves
  else
    writeChunksAux
      (leaves.set leafInd (leaves.getD leafInd [] ++ b.take MerkleChunkSize))
      (leafInd + 1) (b.drop MerkleChunkSize)
termination_by b.length
decreasing_by
  simp only [List.length_drop, MerkleChunkSize]
  have : 0 < b.length := List.length_pos.mpr h
  omega

/-- The `writeToLeaves` method: size guards, then the chunk dispatch. -/
def writeToLeaves (t : FMTState) (b : List Nat) : Except String FMTState :=
  if MaxMerkleLeavesSize < b.length then
    .error ("data size greater than maximum required size")
  else if b.length < MaxMerkleLeavesSize ∧ t.isFinal = false then
    .error ("invalid merkle leaf write")
  else
    .ok { t with leaves := writeChunksAux t.leaves 0 b }

/-- Body of the `Write` loop, with explicit loop counters `i`, `j` and fuel.
Each executed iteration consumes at least one byte of `b` whenever the entry
invariant `writeCount < MaxMerkleLeavesSize` holds, so fuel `b.length + 1`
is enough; the fuel-exhausted branch mirrors the loop exit. -/
def writeLoop : Nat → FMTState → List Nat → Nat → Nat → FMTState × Except String Nat
  | 0, t, b, _, _ => (t, .ok b.length)
  | fuel + 1, t, b, i, j =>
    if i < b.length then
      let j1 := if j > b.length then b.length else j
      let wc := t.writeCount + (j1 - i)
      let t1 : FMTState :=
        { t with writeCount := wc
                 writeBytes := t.writeBytes ++ ((b.drop i).take (j1 - i)) }
      if wc = MaxMerkleLeavesSize then
        match writeToLeaves t1 t1.writeBytes with
        | .error e => (t1, .error e)
        | .ok t2 =>
          writeLoop fuel { t2 with writeCount := 0, writeBytes := [] } b j1
            (j1 + MaxMerkleLeavesSize)
      else writeLoop fuel t1 b j1 (j1 + MaxMerkleLeavesSize)
    else (t, .ok b.length)

/-- The `Write` method. `none` models blocking forever on the held mutex. -/
def Write (t : FMTState) (b : List Nat) : Option (FMTState × Except String Nat) :=
  if t.lockHeld then none
  else if t.isFinal then some (t, .error ("cannot write. Tree is already finalized"))
  else some (writeLoop (b.length + 1) t b 0 (MaxMerkleLeavesSize - t.writeCount))

/-- The `Finalize` method. The early error return happens before
`writeLock.Unlock()`, so that path leaves `lockHeld` true. -/
def Finalize (t : FMTState) : Option (FMTState × Except String Unit) :=
  if t.lockHeld then none
  else if t.isFinal then some ({ t with lockHeld := true }, .error ("already finalized"))
  else
    let t1 : FMTState := { t with isFinal := true }
    if 0 < t1.writeCount then
      match writeToLeaves t1 (t1.writeBytes.take t1.writeCount) with
      | .error e => some (t1, .error e)
      | .ok t2 => some (t2, .ok ())
    else some (t1, .ok ())

/-- Duplication of the last node when the level has odd size, as in
`CalculateMerkleRoot`. -/
def dupIfOdd (nodes : List (List Nat)) : List (List Nat) :=
  if nodes.length % 2 = 1 then nodes ++ [nodes.getD (nodes.length - 1) []] else nodes

/-- Pairwise combination of one level (`newNodes[nodeInd] = MHashBytes(nodes[j], nodes[j+1])`). -/
def pairCombine (mh : List Nat → List Nat → List Nat) :
    List (List Nat) → List (List Nat)
  | a :: b :: rest => mh a b :: pairCombine mh rest
  | _ => []

/-- The bounded reduction loop of `CalculateMerkleRoot` (`for i := 0; i < FixedMTDepth`),
with the early break once a single node remains. -/
def calcLoop (mh : List Nat → List Nat → List Nat) :
    Nat → List (List Nat) → List (List Nat)
  | 0, nodes => nodes
  | fuel + 1, nodes =>
    let nodes1 := pairCombine mh (dupIfOdd nodes)
    if nodes1.length = 1 then nodes1 else calcLoop mh fuel nodes1

/-- Instrumented copy of `calcLoop` that additionally counts the executed
pairwise-reduction rounds and the uses of the odd-duplication branch. -/
def calcLoopStats (mh : List Nat → List Nat → List Nat) :
    Nat → List (List Nat) → List (List Nat) × Nat × Nat
  | 0, nodes => (nodes, 0, 0)
  | fuel + 1, nodes =>
    let odd : Nat := if nodes.length % 2 = 1 then 1 else 0
    let nodes1 := pairCombine mh (dupIfOdd nodes)
    if nodes1.length = 1 then (nodes1, 1, odd)
    else
      let r := calcLoopStats mh fuel nodes1
      (r.1, r.2.1 + 1, odd + r.2.2)

/-- The `CalculateMerkleRoot` method: leaf digests, fold, store `merkleRoot`. -/
def CalculateMerkleRoot (lh : List Nat → List Nat)
    (mh : List Nat → List Nat → List Nat) (t : FMTState) : FMTState :=
  { t with merkleRoot := some ((calcLoop mh FixedMTDepth (t.leaves.map lh)).headD []) }

/-- The digit table of `hex.EncodeToString` (Go's `hextable`). -/
def hexDigits : List Char := ("0123456789abcdef" : String).toList

def hexChar (n : Nat) : Char := hexDigits.getD (n % 16) ('0')

/-- Lowercase hex encoding (`hex.EncodeToString`): two digits per byte. -/
def hexEncode (bs : List Nat) : String :=
  String.mk (bs.flatMap fun b => [hexChar (b / 16), hexChar (b % 16)])

/-- The `GetMerkleRoot` method: return the cached root if present, otherwise
compute and cache it. -/
def GetMerkleRoot (lh : List Nat → List Nat)
    (mh : List Nat → List Nat → List Nat) (t : FMTState) : FMTState × String :=
  match t.merkleRoot with
  | some r => (t, hexEncode r)
  | none =>
    let t1 := CalculateMerkleRoot lh mh t
    (t1, hexEncode (t1.merkleRoot.getD []))

/-- A `FixedMerklePath` inclusion proof. -/
structure FixedMerklePath where
  LeafHash : List Nat
  RootHash : List Nat
  Nodes : List (List Nat)
  LeafInd : Nat
  deriving DecidableEq, Repr

/-- The indexed loop inside `VerifyMerklePath` (`for i := 0; i < len(fp.Nodes); i++`). -/
def verifyLoopGo (mh : List Nat → List Nat → List Nat) (nodes : List (List Nat))
    (i : Nat) (leafInd : Nat) (h : List Nat) : List Nat :=
  if hlt : i < nodes.length then
    verifyLoopGo mh nodes (i + 1) (leafInd / 2)
      (if leafInd % 2 = 0 then mh h (nodes.getD i []) else mh (nodes.getD i []) h)
  else h
termination_by nodes.length - i

/-- The `VerifyMerklePath` method. -/
def VerifyMerklePath (mh : List Nat → List Nat → List Nat)
    (fp : FixedMerklePath) : Bool :=
  decide (verifyLoopGo mh fp.Nodes 0 fp.LeafInd fp.LeafHash = fp.RootHash)

/-- Body of the `Reload` loop: read up to a window from the remaining source,
feed it through `Write`, stop at end of input.  `io.CopyN` returning `io.EOF`
with zero bytes written corresponds to the empty-source branch. -/
def ReloadLoop (t : FMTState) (source : List Nat) :
    Option (FMTState × Except String Unit) :=
  if h : source = [] then some (t, .ok ())
  else
    match Write t (source.take MaxMerkleLeavesSize) with
    | none => none
    | some (t1, .error e) => some (t1, .error e)
    | some (t1, .ok _) => ReloadLoop t1 (source.drop MaxMerkleLeavesSize)
termination_by source.length
decreasing_by
  simp only [List.length_drop, MaxMerkleLeavesSize]
  have : 0 < source.length := List.length_pos.mpr h
  omega

/-- The `Reload` method: reset the leaves, then stream the source through `Write`. -/
def Reload (t : FMTState) (source : List Nat) :
    Option (FMTState × Except String Unit) :=
  ReloadLoop { t with leaves := initLeaves } source

/-- Pure specification of the staging behaviour of `Write` on a non-finalized
tree: repeatedly dispatch full 65536-byte windows of the staged stream to the
leaves, keep the sub-window remainder staged. -/
def absorb (leaves : List (List Nat)) (s : List Nat) :
    List (List Nat) × List Nat :=
  if h : s.length < MaxMerkleLeavesSize then (leaves, s)
  else
    absorb (writeChunksAux leaves 0 (s.take MaxMerkleLeavesSize))
      (s.drop MaxMerkleLeavesSize)
termination_by s.length
decreasing_by
  simp only [List.length_drop]
  have hM : 0 < MaxMerkleLeavesSize := by decide
  omega

/-- Chunk `i` of a dispatched window: bytes `[64*i, 64*i+64)` of the window. -/
def chunkAt (i : Nat) (b : List Nat) : List Nat :=
  (b.drop (MerkleChunkSize * i)).take MerkleChunkSize

/-- One public operation on the tree. -/
inductive FMTOp where
  | write : List Nat → FMTOp
  | finalize : FMTOp
  deriving DecidableEq, Repr

/-- Effect of one operation on the state (result value discarded);
`none` means the call blocks forever on the mutex. -/
def stepOp (t : FMTState) : FMTOp → Option FMTState
  | .write b => (Write t b).map Prod.fst
  | .finalize => (Finalize t).map Prod.fst

/-- Run a sequence of operations from a state; a blocked call aborts the run. -/
def runOps : FMTState → List FMTOp → Option FMTState
  | t, [] => some t
  | t, op :: ops =>
    match stepOp t op with
    | none => none
    | some t1 => runOps t1 ops

/-- Sequence of `Write` calls, each of which must succeed. -/
def writeAll : FMTState → List (List Nat) → Option FMTState
  | t, [] => some t
  | t, p :: ps =>
    match Write t p with
    | some (t1, .ok _) => writeAll t1 ps
    | _ => none

/-- Follows the specification text of `Verify(path)`: structural recursion over
the sibling list, combining left or right according to the parity of the index,
halving the index at each level. -/
def verifySpecFold (mh : List Nat → List Nat → List Nat) :
    List Nat → Nat → List (List Nat) → List Nat
  | h, _, [] => h
  | h, ind, sib :: rest =>
    verifySpecFold mh (if ind % 2 = 0 then mh h sib else mh sib h) (ind / 2) rest

lemma getD_set_ne {α : Type} [Inhabited α] (l : List α) (k i : Nat) (a d : α)
    (h : k ≠ i) : (l.set k a).getD i d = l.getD i d := by
  simp [List.getD, List.getElem?_set_ne h]

lemma getD_set_self {α : Type} [Inhabited α] (l : List α) (k : Nat) (a d : α)
    (h : k < l.length) : (l.set k a).getD k d = a := by
  simp [List.getD, List.getElem?_set_self, h]

lemma writeChunksAux_nil (leaves : List (List Nat)) (k : Nat) :
    writeChunksAux leaves k [] = leaves := by
  rw [writeChunksAux]; simp

lemma writeChunksAux_length (leaves : List (List Nat)) (k : Nat) (b : List Nat) :
    (writeChunksAux leaves k b).length = leaves.length := by
  induction leaves, k, b using writeChunksAux.induct with
  | case1 leaves k => rw [writeChunksAux]; simp
  | case2 leaves k b h ih => rw [writeChunksAux]; simp only [h, dite_false]; rw [ih]; simp

lemma writeChunksAux_getD_lt (leaves : List (List Nat)) (k : Nat) (b : List Nat)
    (i : Nat) (h : i < k) : (writeChunksAux leaves k b).getD i [] = leaves.getD i [] := by
  induction leaves, k, b using writeChunksAux.induct generalizing i with
  | case1 leaves k => rw [writeChunksAux]; simp
  | case2 leaves k b hne ih =>
    rw [writeChunksAux]
    simp only [hne, dite_false]
    rw [ih i (by omega), getD_set_ne _ _ _ _ _ (by omega)]

lemma chunkAt_zero (b : List Nat) : chunkAt 0 b = b.take MerkleChunkSize := by
  simp [chunkAt]

lemma chunkAt_succ_drop (i : Nat) (b : List Nat) :
    chunkAt i (b.drop MerkleChunkSize) = chunkAt (i + 1) b := by
  simp only [chunkAt, List.drop_drop]
  congr 1
  ring_nf

lemma writeChunksAux_getD (leaves : List (List Nat)) (k : Nat) (b : List Nat)
    (i : Nat) (h : k + i < leaves.length) :
    (writeChunksAux leaves k b).getD (k + i) [] =
      leaves.getD (k + i) [] ++ chunkAt i b := by
  induction leaves, k, b using writeChunksAux.induct generalizing i with
  | case1 leaves k => rw [writeChunksAux_nil]; simp [chunkAt]
  | case2 leaves k b hne ih =>
    rw [writeChunksAux]
    simp only [hne, dite_false]
    rcases i with _ | i
    · rw [writeChunksAux_getD_lt _ _ _ _ (by omega)]
      rw [Nat.add_zero]
      rw [getD_set_self _ _ _ _ (by omega)]
      rw [chunkAt_zero]
    · have hk : k + (i + 1) = (k + 1) + i := by omega
      rw [hk]
      rw [ih i (by simp; omega)]
      rw [getD_set_ne _ _ _ _ _ (by omega)]
      rw [chunkAt_succ_drop]

lemma absorb_spec (leaves : List (List Nat)) (s : List Nat) :
    (s.length < MaxMerkleLeavesSize → absorb leaves s = (leaves, s)) ∧
    (¬ s.length < MaxMerkleLeavesSize →
      absorb leaves s =
        absorb (writeChunksAux leaves 0 (s.take MaxMerkleLeavesSize))
          (s.drop MaxMerkleLeavesSize)) := by
  constructor <;> intro h <;> rw [absorb] <;> simp [h]

lemma absorb_snd_length (leaves : List (List Nat)) (s : List Nat) :
    (absorb leaves s).2.length < MaxMerkleLeavesSize := by
  induction leaves, s using absorb.induct with
  | case1 leaves s h => rw [(absorb_spec leaves s).1 h]; exact h
  | case2 leaves s h ih => rw [(absorb_spec leaves s).2 h]; exact ih

lemma absorb_fst_length (leaves : List (List Nat)) (s : List Nat) :
    (absorb leaves s).1.length = leaves.length := by
  induction leaves, s using absorb.induct with
  | case1 leaves s h => rw [(absorb_spec leaves s).1 h]
  | case2 leaves s h ih =>
    rw [(absorb_spec leaves s).2 h]
    rw [ih, writeChunksAux_length]

lemma absorb_append (leaves : List (List Nat)) (s b : List Nat) :
    absorb leaves (s ++ b) =
      absorb (absorb leaves s).1 ((absorb leaves s).2 ++ b) := by
  induction leaves, s using absorb.induct generalizing b with
  | case1 leaves s h => rw [(absorb_spec leaves s).1 h]
  | case2 leaves s h ih =>
    rw [(absorb_spec leaves s).2 h]
    rw [← ih]
    have hle : MaxMerkleLeavesSize ≤ s.length := by omega
    have h2 : ¬ (s ++ b).length < MaxMerkleLeavesSize := by
      simp [List.length_append]; omega
    rw [(absorb_spec leaves (s ++ b)).2 h2]
    have ht : (s ++ b).take MaxMerkleLeavesSize = s.take MaxMerkleLeavesSize := by
      rw [List.take_append_eq_append_take]
      have : MaxMerkleLeavesSize - s.length = 0 := by omega
      simp [this]
    have hd : (s ++ b).drop MaxMerkleLeavesSize = s.drop MaxMerkleLeavesSize ++ b := by
      rw [List.drop_append_eq_append_drop]
      have : MaxMerkleLeavesSize - s.length = 0 := by omega
      simp [this]
    rw [ht, hd]

lemma writeLoop_exit (fuel : Nat) (t : FMTState) (b : List Nat) (i j : Nat)
    (h : ¬ i < b.length) : writeLoop fuel t b i j = (t, .ok b.length) := by
  cases fuel <;> simp [writeLoop, h]

lemma writeLoop_eq_absorb (fuel : Nat) :
    ∀ (t : FMTState) (b : List Nat) (i : Nat),
    t.isFinal = false →
    t.writeCount = t.writeBytes.length →
    t.writeBytes.length < MaxMerkleLeavesSize →
    i ≤ b.length →
    b.length - i < fuel →
    writeLoop fuel t b i (i + (MaxMerkleLeavesSize - t.writeCount)) =
      ({ t with leaves := (absorb t.leaves (t.writeBytes ++ b.drop i)).1
                writeBytes := (absorb t.leaves (t.writeBytes ++ b.drop i)).2
                writeCount := (absorb t.leaves (t.writeBytes ++ b.drop i)).2.length },
       .ok b.length) := by
  induction fuel with
  | zero => intro t b i _ _ _ _ h5; omega
  | succ fuel ih =>
    intro t b i h1 h2 h3 h4 h5
    have hMax : 0 < MaxMerkleLeavesSize := by decide
    by_cases hi : i < b.length
    · -- loop body executes
      by_cases hj : i + (MaxMerkleLeavesSize - t.writeCount) > b.length
      · -- clipped final partial segment: stage it, no dispatch
        have hwc : ¬ t.writeCount + (b.length - i) = MaxMerkleLeavesSize := by omega
        have hstep :
            writeLoop (fuel + 1) t b i (i + (MaxMerkleLeavesSize - t.writeCount)) =
            writeLoop fuel { t with writeCount := t.writeCount + (b.length - i), writeBytes := t.writeBytes ++ ((b.drop i).take (b.length - i)) } b b.length (b.length + MaxMerkleLeavesSize) := by
          rw [writeLoop]
          rw [if_pos hi]
          simp only [if_pos hj, if_neg hwc]
        rw [hstep, writeLoop_exit _ _ _ _ _ (by omega)]
        have htk : (b.drop i).take (b.length - i) = b.drop i := by
          apply List.take_of_length_le
          simp
        have hlen : (t.writeBytes ++ b.drop i).length < MaxMerkleLeavesSize := by
          simp [List.length_append]
          omega
        rw [(absorb_spec t.leaves (t.writeBytes ++ b.drop i)).1 hlen]
        rw [htk]
        simp [List.length_append, h2]
      · -- a full window completes: dispatch it and continue
        have hj' : i + (MaxMerkleLeavesSize - t.writeCount) ≤ b.length := by omega
        have hwc : t.writeCount + (i + (MaxMerkleLeavesSize - t.writeCount) - i) = MaxMerkleLeavesSize := by omega
        have hlen1 : (t.writeBytes ++ ((b.drop i).take (i + (MaxMerkleLeavesSize - t.writeCount) - i))).length = MaxMerkleLeavesSize := by
          simp [List.length_append, List.length_take, List.length_drop]
          omega
        have hwtl :
            writeToLeaves { t with writeCount := t.writeCount + (i + (MaxMerkleLeavesSize - t.writeCount) - i), writeBytes := t.writeBytes ++ ((b.drop i).take (i + (MaxMerkleLeavesSize - t.writeCount) - i)) } (t.writeBytes ++ ((b.drop i).take (i + (MaxMerkleLeavesSize - t.writeCount) - i))) =
            .ok { t with writeCount := t.writeCount + (i + (MaxMerkleLeavesSize - t.writeCount) - i), writeBytes := t.writeBytes ++ ((b.drop i).take (i + (MaxMerkleLeavesSize - t.writeCount) - i)), leaves := writeChunksAux t.leaves 0 (t.writeBytes ++ ((b.drop i).take (i + (MaxMerkleLeavesSize - t.writeCount) - i))) } := by
          rw [writeToLeaves]
          rw [if_neg (by rw [hlen1]; omega)]
          rw [if_neg (by rw [hlen1]; simp)]
        have hstep :
            writeLoop (fuel + 1) t b i (i + (MaxMerkleLeavesSize - t.writeCount)) =
            writeLoop fuel { t with writeCount := 0, writeBytes := [], leaves := writeChunksAux t.leaves 0 (t.writeBytes ++ ((b.drop i).take (i + (MaxMerkleLeavesSize - t.writeCount) - i))) } b (i + (MaxMerkleLeavesSize - t.writeCount)) ((i + (MaxMerkleLeavesSize - t.writeCount)) + MaxMerkleLeavesSize) := by
          rw [writeLoop]
          rw [if_pos hi]
          simp only [if_neg hj, if_pos hwc, hwtl]
        rw [hstep]
        have hrec := ih { t with writeCount := 0, writeBytes := [], leaves := writeChunksAux t.leaves 0 (t.writeBytes ++ ((b.drop i).take (i + (MaxMerkleLeavesSize - t.writeCount) - i))) } b (i + (MaxMerkleLeavesSize - t.writeCount)) h1 rfl hMax hj' (by omega)
        simp only [Nat.sub_zero] at hrec
        rw [hrec]
        -- identify the absorb calls on both sides
        have hsplit : t.writeBytes ++ b.drop i =
            (t.writeBytes ++ ((b.drop i).take (i + (MaxMerkleLeavesSize - t.writeCount) - i))) ++ b.drop (i + (MaxMerkleLeavesSize - t.writeCount)) := by
          rw [List.append_assoc]
          congr 1
          have hdd : b.drop (i + (MaxMerkleLeavesSize - t.writeCount)) =
              (b.drop i).drop (MaxMerkleLeavesSize - t.writeCount) := by
            rw [List.drop_drop]
          rw [hdd]
          have harg : i + (MaxMerkleLeavesSize - t.writeCount) - i =
              MaxMerkleLeavesSize - t.writeCount := by omega
          rw [harg, List.take_append_drop]
        have habs :
            absorb t.leaves (t.writeBytes ++ b.drop i) =
            absorb (writeChunksAux t.leaves 0 (t.writeBytes ++ ((b.drop i).take (i + (MaxMerkleLeavesSize - t.writeCount) - i)))) ([] ++ b.drop (i + (MaxMerkleLeavesSize - t.writeCount))) := by
          rw [hsplit]
          have hw : ¬ ((t.writeBytes ++ ((b.drop i).take (i + (MaxMerkleLeavesSize - t.writeCount) - i))) ++ b.drop (i + (MaxMerkleLeavesSize - t.writeCount))).length < MaxMerkleLeavesSize := by
            simp only [List.length_append, hlen1]
            omega
          rw [(absorb_spec _ _).2 hw]
          congr 1
          · congr 1
            rw [List.take_append_eq_append_take]
            rw [List.take_of_length_le (by rw [hlen1])]
            rw [hlen1]
            simp
          · rw [List.drop_append_eq_append_drop]
            rw [List.drop_eq_nil_of_le (by rw [hlen1])]
            rw [hlen1]
            simp
        rw [habs]
    · -- loop exit: nothing staged beyond what was already there
      have hieq : i = b.length := by omega
      subst hieq
      rw [writeLoop_exit _ _ _ _ _ hi]
      rw [List.drop_length, List.append_nil]
      rw [(absorb_spec t.leaves t.writeBytes).1 h3]
      rw [← h2]

lemma Write_locked (t : FMTState) (b : List Nat) (hL : t.lockHeld = true) :
    Write t b = none := by
  rw [Write, if_pos hL]

lemma Write_finalized (t : FMTState) (b : List Nat) (hL : t.lockHeld = false)
    (hF : t.isFinal = true) :
    Write t b = some (t, .error ("cannot write. Tree is already finalized")) := by
  rw [Write, if_neg (by simp [hL]), if_pos hF]

lemma Write_clean (t : FMTState) (b : List Nat)
    (hL : t.lockHeld = false) (hF : t.isFinal = false)
    (hwc : t.writeCount = t.writeBytes.length)
    (hlt : t.writeBytes.length < MaxMerkleLeavesSize) :
    Write t b =
      some ({ t with leaves := (absorb t.leaves (t.writeBytes ++ b)).1,
                     writeBytes := (absorb t.leaves (t.writeBytes ++ b)).2,
                     writeCount := (absorb t.leaves (t.writeBytes ++ b)).2.length },
            .ok b.length) := by
  rw [Write, if_neg (by simp [hL]), if_neg (by simp [hF])]
  have h := writeLoop_eq_absorb (b.length + 1) t b 0 hF hwc hlt (Nat.zero_le _) (by omega)
  simpa using h

lemma Finalize_locked (t : FMTState) (hL : t.lockHeld = true) :
    Finalize t = none := by
  rw [Finalize, if_pos hL]

lemma Finalize_finalized (t : FMTState) (hL : t.lockHeld = false)
    (hF : t.isFinal = true) :
    Finalize t = some ({ t with lockHeld := true }, .error ("already finalized")) := by
  rw [Finalize, if_neg (by simp [hL]), if_pos hF]

lemma Finalize_clean_zero (t : FMTState) (hL : t.lockHeld = false)
    (hF : t.isFinal = false) (hwc : t.writeCount = 0) :
    Finalize t = some ({ t with isFinal := true }, .ok ()) := by
  rw [Finalize, if_neg (by simp [hL]), if_neg (by simp [hF])]
  simp [hwc]

lemma Finalize_clean_pos (t : FMTState) (hL : t.lockHeld = false)
    (hF : t.isFinal = false) (hpos : 0 < t.writeCount)
    (hwc : t.writeCount = t.writeBytes.length)
    (hlt : t.writeBytes.length < MaxMerkleLeavesSize) :
    Finalize t =
      some ({ t with isFinal := true,
                     leaves := writeChunksAux t.leaves 0 t.writeBytes }, .ok ()) := by
  rw [Finalize, if_neg (by simp [hL]), if_neg (by simp [hF])]
  have htake : t.writeBytes.take t.writeCount = t.writeBytes := by
    rw [hwc]
    exact List.take_length _
  have hwtl : writeToLeaves { t with isFinal := true } (t.writeBytes.take t.writeCount) =
      .ok { t with isFinal := true, leaves := writeChunksAux t.leaves 0 t.writeBytes } := by
    rw [htake, writeToLeaves]
    rw [if_neg (by simp; omega)]
    rw [if_neg (by simp)]
  simp only [hpos, if_pos hpos, hwtl]
  simp

lemma writeAll_clean : ∀ (ps : List (List Nat)) (t : FMTState),
    t.lockHeld = false → t.isFinal = false →
    t.writeCount = t.writeBytes.length →
    t.writeBytes.length < MaxMerkleLeavesSize →
    writeAll t ps =
      some { t with leaves := (absorb t.leaves (t.writeBytes ++ ps.flatten)).1,
                    writeBytes := (absorb t.leaves (t.writeBytes ++ ps.flatten)).2,
                    writeCount := (absorb t.leaves (t.writeBytes ++ ps.flatten)).2.length } := by
  intro ps
  induction ps with
  | nil =>
    intro t hL hF hwc hlt
    rw [writeAll]
    rw [List.flatten_nil, List.append_nil]
    rw [(absorb_spec t.leaves t.writeBytes).1 hlt]
    rw [← hwc]
  | cons p ps ih =>
    intro t hL hF hwc hlt
    rw [writeAll]
    rw [Write_clean t p hL hF hwc hlt]
    dsimp only
    rw [ih { t with leaves := (absorb t.leaves (t.writeBytes ++ p)).1, writeBytes := (absorb t.leaves (t.writeBytes ++ p)).2, writeCount := (absorb t.leaves (t.writeBytes ++ p)).2.length } hL hF rfl (absorb_snd_length _ _)]
    rw [List.flatten_cons, ← List.append_assoc]
    rw [absorb_append t.leaves (t.writeBytes ++ p) ps.flatten]

lemma ReloadLoop_clean (n : Nat) : ∀ (source : List Nat) (t : FMTState),
    source.length ≤ n →
    t.lockHeld = false → t.isFinal = false →
    t.writeCount = t.writeBytes.length →
    t.writeBytes.length < MaxMerkleLeavesSize →
    ReloadLoop t source =
      some ({ t with leaves := (absorb t.leaves (t.writeBytes ++ source)).1,
                     writeBytes := (absorb t.leaves (t.writeBytes ++ source)).2,
                     writeCount := (absorb t.leaves (t.writeBytes ++ source)).2.length },
            .ok ()) := by
  induction n with
  | zero =>
    intro source t hn hL hF hwc hlt
    have hs : source = [] := List.length_eq_zero.mp (by omega)
    subst hs
    rw [ReloadLoop]
    rw [List.append_nil]
    rw [(absorb_spec t.leaves t.writeBytes).1 hlt]
    simp [← hwc]
  | succ n ih =>
    intro source t hn hL hF hwc hlt
    by_cases hs : source = []
    · subst hs
      rw [ReloadLoop]
      rw [List.append_nil]
      rw [(absorb_spec t.leaves t.writeBytes).1 hlt]
      simp [← hwc]
    · rw [ReloadLoop]
      rw [dif_neg hs]
      rw [Write_clean t _ hL hF hwc hlt]
      have hlen : (source.drop MaxMerkleLeavesSize).length ≤ n := by
        have h1 : 0 < source.length := List.length_pos.mpr hs
        have h2 : 0 < MaxMerkleLeavesSize := by decide
        simp only [List.length_drop]
        omega
      dsimp only
      rw [ih (source.drop MaxMerkleLeavesSize) { t with leaves := (absorb t.leaves (t.writeBytes ++ source.take MaxMerkleLeavesSize)).1, writeBytes := (absorb t.leaves (t.writeBytes ++ source.take MaxMerkleLeavesSize)).2, writeCount := (absorb t.leaves (t.writeBytes ++ source.take MaxMerkleLeavesSize)).2.length } hlen hL hF rfl (absorb_snd_length _ _)]
      rw [← absorb_append]
      rw [List.append_assoc, List.take_append_drop]

lemma Reload_clean (source : List Nat) (t : FMTState)
    (hL : t.lockHeld = false) (hF : t.isFinal = false)
    (hwc : t.writeCount = t.writeBytes.length)
    (hlt : t.writeBytes.length < MaxMerkleLeavesSize) :
    Reload t source =
      some ({ t with leaves := (absorb initLeaves (t.writeBytes ++ source)).1,
                     writeBytes := (absorb initLeaves (t.writeBytes ++ source)).2,
                     writeCount := (absorb initLeaves (t.writeBytes ++ source)).2.length },
            .ok ()) := by
  rw [Reload]
  rw [ReloadLoop_clean source.length source { t with leaves := initLeaves } le_rfl hL hF hwc hlt]

/-- Packaged form of `Reload_clean` exposing the fields of the result. -/
lemma Reload_clean_result (source : List Nat) (t : FMTState)
    (hL : t.lockHeld = false) (hF : t.isFinal = false)
    (hwc : t.writeCount = t.writeBytes.length)
    (hlt : t.writeBytes.length < MaxMerkleLeavesSize) :
    ∃ q, Reload t source = some (q, .ok ()) ∧
      q.leaves = (absorb initLeaves (t.writeBytes ++ source)).1 ∧
      q.merkleRoot = t.merkleRoot ∧ q.isFinal = t.isFinal ∧
      q.lockHeld = t.lockHeld ∧
      q.writeBytes = (absorb initLeaves (t.writeBytes ++ source)).2 ∧
      q.writeCount = q.writeBytes.length :=
  ⟨_, Reload_clean source t hL hF hwc hlt, rfl, rfl, rfl, rfl, rfl, rfl⟩

lemma stepOp_preserves (t t1 : FMTState) (op : FMTOp)
    (h : stepOp t op = some t1)
    (hwc : t.writeCount = t.writeBytes.length)
    (hlt : t.writeBytes.length < MaxMerkleLeavesSize) :
    t1.writeCount = t1.writeBytes.length ∧
      t1.writeBytes.length < MaxMerkleLeavesSize := by
  cases op with
  | write b =>
    cases hL : t.lockHeld with
    | true => rw [stepOp, Write_locked t b hL] at h; exact absurd h (by simp)
    | false =>
      cases hF : t.isFinal with
      | true =>
        rw [stepOp, Write_finalized t b hL hF] at h
        simp only [Option.map_some', Option.some_inj] at h
        rw [← h]
        exact ⟨hwc, hlt⟩
      | false =>
        rw [stepOp, Write_clean t b hL hF hwc hlt] at h
        simp only [Option.map_some', Option.some_inj] at h
        rw [← h]
        exact ⟨rfl, absorb_snd_length _ _⟩
  | finalize =>
    cases hL : t.lockHeld with
    | true => rw [stepOp, Finalize_locked t hL] at h; exact absurd h (by simp)
    | false =>
      cases hF : t.isFinal with
      | true =>
        rw [stepOp, Finalize_finalized t hL hF] at h
        simp only [Option.map_some', Option.some_inj] at h
        rw [← h]
        exact ⟨hwc, hlt⟩
      | false =>
        by_cases hpos : 0 < t.writeCount
        · rw [stepOp, Finalize_clean_pos t hL hF hpos hwc hlt] at h
          simp only [Option.map_some', Option.some_inj] at h
          rw [← h]
          exact ⟨hwc, hlt⟩
        · rw [stepOp, Finalize_clean_zero t hL hF (by omega)] at h
          simp only [Option.map_some', Option.some_inj] at h
          rw [← h]
          exact ⟨hwc, hlt⟩

lemma stepOp_isFinal_mono (t t1 : FMTState) (op : FMTOp)
    (h : stepOp t op = some t1) (hF : t.isFinal = true) :
    t1.isFinal = true := by
  cases op with
  | write b =>
    cases hL : t.lockHeld with
    | true => rw [stepOp, Write_locked t b hL] at h; exact absurd h (by simp)
    | false =>
      rw [stepOp, Write_finalized t b hL hF] at h
      simp only [Option.map_some', Option.some_inj] at h
      rw [← h]
      exact hF
  | finalize =>
    cases hL : t.lockHeld with
    | true => rw [stepOp, Finalize_locked t hL] at h; exact absurd h (by simp)
    | false =>
      rw [stepOp, Finalize_finalized t hL hF] at h
      simp only [Option.map_some', Option.some_inj] at h
      rw [← h]
      exact hF

lemma runOps_inv : ∀ (ops : List FMTOp) (t t1 : FMTState),
    runOps t ops = some t1 →
    t.writeCount = t.writeBytes.length →
    t.writeBytes.length < MaxMerkleLeavesSize →
    t1.writeCount = t1.writeBytes.length ∧
      t1.writeBytes.length < MaxMerkleLeavesSize := by
  intro ops
  induction ops with
  | nil =>
    intro t t1 h hwc hlt
    rw [runOps] at h
    simp only [Option.some_inj] at h
    rw [← h]
    exact ⟨hwc, hlt⟩
  | cons op ops ih =>
    intro t t1 h hwc hlt
    rw [runOps] at h
    rcases hst : stepOp t op with _ | t2
    · rw [hst] at h
      exact absurd h (by simp)
    · rw [hst] at h
      obtain ⟨h1, h2⟩ := stepOp_preserves t t2 op hst hwc hlt
      exact ih t2 t1 h h1 h2

lemma dupIfOdd_even (nodes : List (List Nat)) (h : nodes.length % 2 = 0) :
    dupIfOdd nodes = nodes := by
  rw [dupIfOdd, if_neg (by omega)]

lemma pairCombine_length (mh : List Nat → List Nat → List Nat) :
    ∀ l : List (List Nat), (pairCombine mh l).length = l.length / 2
  | [] => by rfl
  | [a] => by simp [pairCombine]
  | a :: b :: rest => by
    rw [pairCombine]
    simp only [List.length_cons]
    rw [pairCombine_length mh rest]
    omega

lemma calcLoop_eq_statsFst (mh : List Nat → List Nat → List Nat) :
    ∀ (fuel : Nat) (nodes : List (List Nat)),
    calcLoop mh fuel nodes = (calcLoopStats mh fuel nodes).1
  | 0, nodes => rfl
  | fuel + 1, nodes => by
    rw [calcLoop, calcLoopStats]
    by_cases h : (pairCombine mh (dupIfOdd nodes)).length = 1
    · simp [h]
    · simp only [h, if_neg h]
      exact calcLoop_eq_statsFst mh fuel _

lemma two_le_two_pow (k : Nat) : 2 ≤ 2 ^ (k + 1) := by
  calc 2 = 2 ^ 1 := rfl
  _ ≤ 2 ^ (k + 1) := Nat.pow_le_pow_right (by norm_num) (by omega)

lemma calcLoopStats_pow (mh : List Nat → List Nat → List Nat) :
    ∀ (k fuel : Nat) (nodes : List (List Nat)),
    nodes.length = 2 ^ (k + 1) → k + 1 ≤ fuel →
    ∃ a b, calcLoopStats mh fuel nodes = ([mh a b], k + 1, 0) := by
  intro k
  induction k with
  | zero =>
    intro fuel nodes hlen hf
    obtain ⟨a, b, rfl⟩ := List.length_eq_two.mp (by simpa using hlen)
    cases fuel with
    | zero => omega
    | succ fuel =>
      refine ⟨a, b, ?_⟩
      rw [calcLoopStats]
      have hd : dupIfOdd [a, b] = [a, b] := dupIfOdd_even _ (by simp)
      rw [hd]
      simp [pairCombine]
  | succ k ih =>
    intro fuel nodes hlen hf
    cases fuel with
    | zero => omega
    | succ fuel =>
      have heven : nodes.length % 2 = 0 := by
        rw [hlen, pow_succ]
        exact Nat.mul_mod_left _ _
      have hd := dupIfOdd_even nodes heven
      have hlen1 : (pairCombine mh (dupIfOdd nodes)).length = 2 ^ (k + 1) := by
        rw [hd, pairCombine_length, hlen, pow_succ]
        omega
      have hne : ¬ (pairCombine mh (dupIfOdd nodes)).length = 1 := by
        rw [hlen1]
        have := two_le_two_pow k
        omega
      obtain ⟨a, b, hrec⟩ := ih fuel _ hlen1 (by omega)
      refine ⟨a, b, ?_⟩
      rw [calcLoopStats]
      simp only [if_neg hne, hrec]
      have hodd : (if nodes.length % 2 = 1 then (1 : Nat) else 0) = 0 := by
        rw [if_neg (by omega)]
      rw [hodd]

lemma verifyLoopGo_eq_drop_aux (mh : List Nat → List Nat → List Nat)
    (nodes : List (List Nat)) :
    ∀ (n i ind : Nat) (h : List Nat), nodes.length - i ≤ n →
    verifyLoopGo mh nodes i ind h = verifySpecFold mh h ind (nodes.drop i) := by
  intro n
  induction n with
  | zero =>
    intro i ind h hn
    have hge : ¬ i < nodes.length := by omega
    rw [verifyLoopGo, dif_neg hge]
    rw [List.drop_eq_nil_of_le (by omega), verifySpecFold]
  | succ n ih =>
    intro i ind h hn
    by_cases hlt : i < nodes.length
    · rw [verifyLoopGo, dif_pos hlt]
      rw [ih (i + 1) (ind / 2) _ (by omega)]
      rw [List.drop_eq_getElem_cons hlt]
      rw [verifySpecFold]
      rw [List.getD_eq_getElem nodes [] hlt]
    · rw [verifyLoopGo, dif_neg hlt]
      rw [List.drop_eq_nil_of_le (by omega), verifySpecFold]

lemma verifyLoopGo_eq_specFold (mh : List Nat → List Nat → List Nat)
    (nodes : List (List Nat)) (ind : Nat) (h : List Nat) :
    verifyLoopGo mh nodes 0 ind h = verifySpecFold mh h ind nodes := by
  rw [verifyLoopGo_eq_drop_aux mh nodes nodes.length 0 ind h (by omega)]
  rw [List.drop_zero]

lemma hexList_length (bs : List Nat) :
    (bs.flatMap fun b => [hexChar (b / 16), hexChar (b % 16)]).length = 2 * bs.length := by
  induction bs with
  | nil => rfl
  | cons b bs ih =>
    rw [List.flatMap_cons, List.length_append, ih]
    simp only [List.length_cons, List.length_nil, List.length_cons]
    omega

lemma hexEncode_length (bs : List Nat) : (hexEncode bs).length = 2 * bs.length := by
  have h : (hexEncode bs).length =
      (bs.flatMap fun b => [hexChar (b / 16), hexChar (b % 16)]).length := rfl
  rw [h, hexList_length]

lemma hexChar_mem (n : Nat) : hexChar n ∈ hexDigits := by
  rw [hexChar]
  have h : n % 16 < hexDigits.length := by
    have h16 : n % 16 < 16 := Nat.mod_lt _ (by norm_num)
    have hlen : hexDigits.length = 16 := by decide
    omega
  rw [List.getD_eq_getElem hexDigits ('0') h]
  exact List.getElem_mem h

lemma hexEncode_mem (bs : List Nat) (c : Char) (h : c ∈ (hexEncode bs).data) :
    c ∈ hexDigits := by
  have h' : c ∈ bs.flatMap fun b => [hexChar (b / 16), hexChar (b % 16)] := h
  rw [List.mem_flatMap] at h'
  obtain ⟨b, _, hc⟩ := h'
  simp only [List.mem_cons, List.not_mem_nil, or_false] at hc
  rcases hc with rfl | rfl <;> exact hexChar_mem _

lemma absorb_small (leaves : List (List Nat)) (s : List Nat)
    (h : s.length < MaxMerkleLeavesSize) : absorb leaves s = (leaves, s) :=
  (absorb_spec leaves s).1 h

lemma absorb_exact (leaves : List (List Nat)) (s : List Nat)
    (h : s.length = MaxMerkleLeavesSize) :
    absorb leaves s = (writeChunksAux leaves 0 s, []) := by
  rw [(absorb_spec leaves s).2 (by omega)]
  rw [List.take_of_length_le (by omega), List.drop_eq_nil_of_le (by omega)]
  exact (absorb_spec _ _).1 (by decide)

lemma absorb_one_window (leaves : List (List Nat)) (s : List Nat)
    (h1 : MaxMerkleLeavesSize ≤ s.length)
    (h2 : s.length - MaxMerkleLeavesSize < MaxMerkleLeavesSize) :
    absorb leaves s =
      (writeChunksAux leaves 0 (s.take MaxMerkleLeavesSize),
        s.drop MaxMerkleLeavesSize) := by
  rw [(absorb_spec leaves s).2 (by omega)]
  exact (absorb_spec _ _).1 (by rw [List.length_drop]; omega)

/-- Packaged form of `Write_clean` carrying the state invariant forward. -/
lemma Write_clean_result (t : FMTState) (b : List Nat)
    (hL : t.lockHeld = false) (hF : t.isFinal = false)
    (hwc : t.writeCount = t.writeBytes.length)
    (hlt : t.writeBytes.length < MaxMerkleLeavesSize) :
    ∃ t1, Write t b = some (t1, .ok b.length) ∧
      t1.lockHeld = false ∧ t1.isFinal = false ∧
      t1.writeCount = t1.writeBytes.length ∧
      t1.writeBytes.length < MaxMerkleLeavesSize ∧
      t1.leaves = (absorb t.leaves (t.writeBytes ++ b)).1 ∧
      t1.writeBytes = (absorb t.leaves (t.writeBytes ++ b)).2 ∧
      t1.merkleRoot = t.merkleRoot :=
  ⟨_, Write_clean t b hL hF hwc hlt, hL, hF, rfl, absorb_snd_length _ _, rfl, rfl, rfl⟩

lemma initLeaves_length : initLeaves.length = FixedMerkleLeaves := by
  rw [initLeaves, List.length_replicate]

lemma initLeaves_getD_zero : initLeaves.getD 0 [] = [] := by
  rw [initLeaves, List.getD_eq_getElem?_getD, List.getElem?_replicate]
  rw [if_pos (by decide)]
  rfl

lemma writeChunksAux_getD_zero (leaves : List (List Nat)) (b : List Nat)
    (h : 0 < leaves.length) :
    (writeChunksAux leaves 0 b).getD 0 [] =
      leaves.getD 0 [] ++ b.take MerkleChunkSize := by
  have hh := writeChunksAux_getD leaves 0 b 0 (by omega)
  simpa [chunkAt] using hh

lemma GetMerkleRoot_some (lh : List Nat → List Nat)
    (mh : List Nat → List Nat → List Nat) (t : FMTState) (r : List Nat)
    (h : t.merkleRoot = some r) : GetMerkleRoot lh mh t = (t, hexEncode r) := by
  rw [GetMerkleRoot, h]

lemma GetMerkleRoot_none (lh : List Nat → List Nat)
    (mh : List Nat → List Nat → List Nat) (t : FMTState)
    (h : t.merkleRoot = none) :
    GetMerkleRoot lh mh t =
      (CalculateMerkleRoot lh mh t,
        hexEncode ((calcLoop mh FixedMTDepth (t.leaves.map lh)).headD [])) := by
  rw [GetMerkleRoot, h]
  rfl

/-- Concrete order-sensitive combinator used by witnesses: tags the first
argument with its length, so swapping the arguments changes the result. -/
def pairTag (a b : List Nat) : List Nat := a.length :: (a ++ b)

/-- C10: the two error branches of `writeToLeaves` are unreachable through the
public interface.  On any tree satisfying the reachable-state invariant that is
not finalized (and whose lock is free), `Write b` returns `(len b, nil)` for
every input `b`, and `Finalize` returns `nil`: the full-window dispatch inside
`Write` always carries exactly 65536 bytes, and `Finalize` sets the finalized
flag before dispatching the sub-window remainder. -/
theorem c10_write_never_fails (t : FMTState) (b : List Nat)
    (hL : t.lockHeld = false) (hF : t.isFinal = false)
    (hwc : t.writeCount = t.writeBytes.length)
    (hlt : t.writeBytes.length < MaxMerkleLeavesSize) :
    (∃ t1, Write t b = some (t1, .ok b.length)) ∧
    (∃ t2, Finalize t = some (t2, .ok ())) := by
  constructor
  · exact ⟨_, Write_clean t b hL hF hwc hlt⟩
  · by_cases hpos : 0 < t.writeCount
    · exact ⟨_, Finalize_clean_pos t hL hF hpos hwc hlt⟩
    · exact ⟨_, Finalize_clean_zero t hL hF (by omega)⟩

/-- Witness for C10 at a fresh tree and the concrete input `[1, 2, 3]`. -/
theorem c10_witness :
    (∃ t1, Write NewFixedMerkleTree [1, 2, 3] = some (t1, .ok 3)) ∧
    (∃ t2, Finalize NewFixedMerkleTree = some (t2, .ok ())) :=
  c10_write_never_fails NewFixedMerkleTree [1, 2, 3] rfl rfl rfl (by decide)

/-- C3 (code bug): on a fresh tree the first `Finalize` succeeds and the second
returns the "already finalized" error, but the second call returns without
releasing `writeLock` (the early `return` precedes the `Unlock`), so the third
`Finalize` — and any `Write` issued after it — blocks forever on the mutex
(`none` in the sequential model) instead of returning the error the
specification promises.  A `Write` issued while the lock is still free does
return the "tree is already finalized" error. -/
theorem c3_finalize_missing_unlock :
    ∃ t1 t2, Finalize NewFixedMerkleTree = some (t1, .ok ()) ∧
      Finalize t1 = some (t2, .error ("already finalized")) ∧
      Finalize t2 = none ∧
      Write t2 [0] = none ∧
      Write t1 [0] = some (t1, .error ("cannot write. Tree is already finalized")) := by
  refine ⟨{ NewFixedMerkleTree with isFinal := true },
    { NewFixedMerkleTree with isFinal := true, lockHeld := true }, ?_, ?_, ?_, ?_, ?_⟩
  · exact Finalize_clean_zero _ rfl rfl rfl
  · exact Finalize_finalized _ rfl rfl
  · exact Finalize_locked _ rfl
  · exact Write_locked _ _ rfl
  · exact Write_finalized _ _ rfl rfl

/-- C9: on every state reachable from a fresh tree by `Write`/`Finalize` calls
that return, the staged-byte count equals the staged-prefix length and stays
strictly below the window size; and no single operation ever takes the
finalized flag from true back to false. -/
theorem c9_staging_invariants :
    (∀ (ops : List FMTOp) (t : FMTState),
      runOps NewFixedMerkleTree ops = some t →
      t.writeCount = t.writeBytes.length ∧ t.writeCount < MaxMerkleLeavesSize) ∧
    (∀ (t t1 : FMTState) (op : FMTOp),
      stepOp t op = some t1 → t.isFinal = true → t1.isFinal = true) := by
  constructor
  · intro ops t h
    obtain ⟨h1, h2⟩ := runOps_inv ops NewFixedMerkleTree t h rfl (by decide)
    exact ⟨h1, by omega⟩
  · exact stepOp_isFinal_mono

/-- Witness for C9: the empty run and one write step on a finalized state. -/
theorem c9_witness :
    (NewFixedMerkleTree.writeCount = NewFixedMerkleTree.writeBytes.length ∧
      NewFixedMerkleTree.writeCount < MaxMerkleLeavesSize) ∧
    ({ NewFixedMerkleTree with isFinal := true } : FMTState).isFinal = true :=
  ⟨c9_staging_invariants.1 [] NewFixedMerkleTree rfl,
    c9_staging_invariants.2 { NewFixedMerkleTree with isFinal := true }
      { NewFixedMerkleTree with isFinal := true } (.write [5])
      (by rw [stepOp, Write_finalized _ _ rfl rfl]; rfl) rfl⟩

/-- C1: splitting a byte sequence into consecutive segments and writing them
through successive `Write` calls on a fresh tree leaves the tree in exactly the
state produced by one `Write` of the whole sequence; all the writes succeed,
and finalizing and reading the root afterwards therefore gives the same root
string for every split. -/
theorem c1_split_determinism (lh : List Nat → List Nat)
    (mh : List Nat → List Nat → List Nat) (ps : List (List Nat)) :
    writeAll NewFixedMerkleTree ps = writeAll NewFixedMerkleTree [ps.flatten] ∧
    (∃ t, writeAll NewFixedMerkleTree ps = some t) ∧
    ((writeAll NewFixedMerkleTree ps).bind fun t =>
        (Finalize t).map fun q => (GetMerkleRoot lh mh q.1).2) =
      ((writeAll NewFixedMerkleTree [ps.flatten]).bind fun t =>
        (Finalize t).map fun q => (GetMerkleRoot lh mh q.1).2) := by
  have h1 := writeAll_clean ps NewFixedMerkleTree rfl rfl rfl (by decide)
  have h2 := writeAll_clean [ps.flatten] NewFixedMerkleTree rfl rfl rfl (by decide)
  have h3 : ([ps.flatten] : List (List Nat)).flatten = ps.flatten := by
    rw [List.flatten_cons, List.flatten_nil, List.append_nil]
  rw [h3] at h2
  exact ⟨h1.trans h2.symm, ⟨_, h1⟩, by rw [h1.trans h2.symm]⟩

/-- C2: `VerifyMerklePath` accepts exactly when replaying the sibling chain
from the leaf — combining on the left for even indices, on the right for odd
ones, halving the index each level — reproduces the claimed root; in the
depth-1 instance with root `mh L0 L1`, leaf `L0` and sibling list `[L1]`,
index 0 verifies and changing only the index to 1 fails, because the combine
order flips to `mh L1 L0`. -/
theorem c2_verify_merkle_path (mh : List Nat → List Nat → List Nat) :
    (∀ fp : FixedMerklePath,
      VerifyMerklePath mh fp = true ↔
        verifySpecFold mh fp.LeafHash fp.LeafInd fp.Nodes = fp.RootHash) ∧
    (∀ L0 L1 : List Nat, mh L0 L1 ≠ mh L1 L0 →
      VerifyMerklePath mh ⟨L0, mh L0 L1, [L1], 0⟩ = true ∧
      VerifyMerklePath mh ⟨L0, mh L0 L1, [L1], 1⟩ = false) := by
  constructor
  · intro fp
    rw [VerifyMerklePath, verifyLoopGo_eq_specFold]
    exact decide_eq_true_iff
  · intro L0 L1 hne
    constructor
    · rw [VerifyMerklePath, verifyLoopGo_eq_specFold]
      simp [verifySpecFold]
    · rw [VerifyMerklePath, verifyLoopGo_eq_specFold]
      simp only [verifySpecFold]
      rw [if_neg (by omega)]
      simp only [decide_eq_false_iff_not]
      exact fun hc => hne hc.symm

/-- Witness for C2 with the concrete order-sensitive combinator `pairTag`. -/
theorem c2_witness :
    VerifyMerklePath pairTag ⟨[1], pairTag [1] [2], [[2]], 0⟩ = true ∧
    VerifyMerklePath pairTag ⟨[1], pairTag [1] [2], [[2]], 1⟩ = false :=
  (c2_verify_merkle_path pairTag).2 [1] [2] (by decide)

/-- C6: dispatching a window feeds its consecutive 64-byte chunks (the final
one possibly shorter) to the leaf of the same position, so after any sequence
of dispatched windows leaf `i` has accumulated the concatenation, in arrival
order, of chunk `i` of every window, and its digest is the hash of that
concatenation. -/
theorem c6_chunk_dispatch (lh : List Nat → List Nat)
    (leaves : List (List Nat)) (ws : List (List Nat)) (i : Nat)
    (hi : i < leaves.length)
    (hw : ∀ w ∈ ws, w.length ≤ MaxMerkleLeavesSize) :
    ((ws.foldl (fun ls w => writeChunksAux ls 0 w) leaves).getD i []) =
      leaves.getD i [] ++ (ws.map fun w => chunkAt i w).flatten ∧
    GetHashBytes lh ((ws.foldl (fun ls w => writeChunksAux ls 0 w) leaves).getD i []) =
      lh (leaves.getD i [] ++ (ws.map fun w => chunkAt i w).flatten) := by
  have key : ∀ (ws : List (List Nat)) (leaves : List (List Nat)),
      i < leaves.length →
      ((ws.foldl (fun ls w => writeChunksAux ls 0 w) leaves).getD i []) =
        leaves.getD i [] ++ (ws.map fun w => chunkAt i w).flatten := by
    intro ws
    induction ws with
    | nil => intro leaves hi; simp
    | cons w ws ih =>
      intro leaves hi
      rw [List.foldl_cons, ih _ (by rw [writeChunksAux_length]; exact hi)]
      have h0 := writeChunksAux_getD leaves 0 w i (by omega)
      simp only [Nat.zero_add] at h0
      rw [h0, List.map_cons, List.flatten_cons, List.append_assoc]
  have h := key ws leaves hi
  exact ⟨h, by rw [h]; rfl⟩

/-- Witness for C6 at the fresh leaves, one window `[1, 2, 3]`, position 0. -/
theorem c6_witness :
    ((([[1, 2, 3]] : List (List Nat)).foldl
        (fun ls w => writeChunksAux ls 0 w) initLeaves).getD 0 []) =
      initLeaves.getD 0 [] ++
        (([[1, 2, 3]] : List (List Nat)).map fun w => chunkAt 0 w).flatten ∧
    GetHashBytes (fun x => x)
        ((([[1, 2, 3]] : List (List Nat)).foldl
          (fun ls w => writeChunksAux ls 0 w) initLeaves).getD 0 []) =
      (fun x => x) (initLeaves.getD 0 [] ++
        (([[1, 2, 3]] : List (List Nat)).map fun w => chunkAt 0 w).flatten) :=
  c6_chunk_dispatch (fun x => x) initLeaves [[1, 2, 3]] 0
    (by rw [initLeaves_length]; decide) (by decide)

/-- C7: on the fixed 1024-leaf configuration, `CalculateMerkleRoot` performs
exactly 10 pairwise-reduction rounds inside its 11-iteration bounded loop
(stopping at the early break when one node remains), never takes the odd-node
duplication branch, and stores that single remaining node as the root. -/
theorem c7_fold_rounds (lh : List Nat → List Nat)
    (mh : List Nat → List Nat → List Nat) (t : FMTState)
    (hlen : t.leaves.length = FixedMerkleLeaves) :
    ∃ r, calcLoopStats mh FixedMTDepth (t.leaves.map lh) = ([r], 10, 0) ∧
      CalculateMerkleRoot lh mh t = { t with merkleRoot := some r } := by
  have hlen2 : (t.leaves.map lh).length = 2 ^ (9 + 1) := by
    rw [List.length_map, hlen, FixedMerkleLeaves]
    norm_num
  obtain ⟨a, b, h⟩ := calcLoopStats_pow mh 9 FixedMTDepth (t.leaves.map lh) hlen2
    (by rw [FixedMTDepth]; omega)
  refine ⟨mh a b, by simpa using h, ?_⟩
  rw [CalculateMerkleRoot, calcLoop_eq_statsFst, h]
  rfl

/-- Witness for C7 at a fresh tree. -/
theorem c7_witness :
    ∃ r, calcLoopStats pairTag FixedMTDepth
        (NewFixedMerkleTree.leaves.map fun x => x) = ([r], 10, 0) ∧
      CalculateMerkleRoot (fun x => x) pairTag NewFixedMerkleTree =
        { NewFixedMerkleTree with merkleRoot := some r } :=
  c7_fold_rounds (fun x => x) pairTag NewFixedMerkleTree
    (by rw [show NewFixedMerkleTree.leaves = initLeaves from rfl, initLeaves_length])

/-- C8: with no cached root, the first `GetMerkleRoot` call computes the root,
caches it and returns its lowercase hex encoding (64 characters when the
combinator produces 32-byte digests); once cached, every further call returns
the identical string with the state unchanged and without recomputing — the
result no longer depends on the leaves at all. -/
theorem c8_root_caching (lh : List Nat → List Nat)
    (mh : List Nat → List Nat → List Nat) (t : FMTState)
    (hlen : t.leaves.length = FixedMerkleLeaves)
    (hmh : ∀ a b, (mh a b).length = 32)
    (h0 : t.merkleRoot = none) :
    ∃ r, GetMerkleRoot lh mh t = ({ t with merkleRoot := some r }, hexEncode r) ∧
      r.length = 32 ∧
      (hexEncode r).length = 64 ∧
      (∀ c ∈ (hexEncode r).data, c ∈ hexDigits) ∧
      GetMerkleRoot lh mh { t with merkleRoot := some r } =
        ({ t with merkleRoot := some r }, hexEncode r) ∧
      (∀ ls, GetMerkleRoot lh mh { t with merkleRoot := some r, leaves := ls } =
        ({ t with merkleRoot := some r, leaves := ls }, hexEncode r)) := by
  have hlen2 : (t.leaves.map lh).length = 2 ^ (9 + 1) := by
    rw [List.length_map, hlen, FixedMerkleLeaves]
    norm_num
  obtain ⟨a, b, h⟩ := calcLoopStats_pow mh 9 FixedMTDepth (t.leaves.map lh) hlen2
    (by rw [FixedMTDepth]; omega)
  have hroot : (calcLoop mh FixedMTDepth (t.leaves.map lh)).headD [] = mh a b := by
    rw [calcLoop_eq_statsFst, h]
    rfl
  refine ⟨mh a b, ?_, hmh a b, ?_, ?_, ?_, ?_⟩
  · rw [GetMerkleRoot_none lh mh t h0, hroot]
    rw [CalculateMerkleRoot, hroot]
  · rw [hexEncode_length, hmh a b]
  · exact fun c hc => hexEncode_mem _ c hc
  · exact GetMerkleRoot_some lh mh _ _ rfl
  · exact fun ls => GetMerkleRoot_some lh mh _ _ rfl

/-- Witness for C8 at a fresh tree with a constant 32-byte combinator. -/
theorem c8_witness :
    ∃ r, GetMerkleRoot (fun x => x) (fun _ _ => List.replicate 32 0)
        NewFixedMerkleTree =
        ({ NewFixedMerkleTree with merkleRoot := some r }, hexEncode r) ∧
      r.length = 32 ∧
      (hexEncode r).length = 64 ∧
      (∀ c ∈ (hexEncode r).data, c ∈ hexDigits) ∧
      GetMerkleRoot (fun x => x) (fun _ _ => List.replicate 32 0)
          { NewFixedMerkleTree with merkleRoot := some r } =
        ({ NewFixedMerkleTree with merkleRoot := some r }, hexEncode r) ∧
      (∀ ls, GetMerkleRoot (fun x => x) (fun _ _ => List.replicate 32 0)
          { NewFixedMerkleTree with merkleRoot := some r, leaves := ls } =
        ({ NewFixedMerkleTree with merkleRoot := some r, leaves := ls },
          hexEncode r)) :=
  c8_root_caching (fun x => x) (fun _ _ => List.replicate 32 0) NewFixedMerkleTree
    (by rw [show NewFixedMerkleTree.leaves = initLeaves from rfl, initLeaves_length])
    (fun a b => by rw [List.length_replicate]) rfl

/-- C4 counterexample: on a fresh tree, after `Write` of 65536 bytes and
`Write` of 100 more, a further `Write` (of 7 bytes, without finalizing) does
not fail — it returns `ok` with its length, refuting the claimed error. -/
theorem c4_counterexample :
    ((Write NewFixedMerkleTree (List.replicate 65536 0)).bind fun p1 =>
      (Write p1.1 (List.replicate 100 0)).bind fun p2 =>
        (Write p2.1 (List.replicate 7 0)).map fun p3 => p3.2) =
      some (.ok 7) := by
  obtain ⟨t1, he1, hL1, hF1, hwc1, hlt1, -, -, -⟩ :=
    Write_clean_result NewFixedMerkleTree (List.replicate 65536 0) rfl rfl rfl (by decide)
  rw [he1, Option.some_bind]
  dsimp only
  obtain ⟨t2, he2, hL2, hF2, hwc2, hlt2, -, -, -⟩ :=
    Write_clean_result t1 (List.replicate 100 0) hL1 hF1 hwc1 hlt1
  rw [he2, Option.some_bind]
  dsimp only
  obtain ⟨t3, he3, -, -, -, -, -, -, -⟩ :=
    Write_clean_result t2 (List.replicate 7 0) hL2 hF2 hwc2 hlt2
  rw [List.length_replicate] at he3
  rw [he3, Option.map_some']

/-- C4 amended: the third `Write` succeeds (mid-stream partials are staged,
never rejected: a partial window reaches the leaf dispatch only at
`Finalize`); and writing 65536 + 100 bytes followed directly by `Finalize`
succeeds, dispatching the staged 100-byte remainder as the terminal partial
window. -/
theorem c4_amended_writes_succeed :
    (∃ t1 t2 t3,
      Write NewFixedMerkleTree (List.replicate 65536 0) = some (t1, .ok 65536) ∧
      Write t1 (List.replicate 100 0) = some (t2, .ok 100) ∧
      Write t2 (List.replicate 7 0) = some (t3, .ok 7)) ∧
    (∃ t4 t5,
      Write NewFixedMerkleTree (List.replicate 65636 0) = some (t4, .ok 65636) ∧
      t4.writeCount = 100 ∧ t4.writeBytes = List.replicate 100 0 ∧
      Finalize t4 = some (t5, .ok ()) ∧
      t5.isFinal = true ∧
      t5.leaves = writeChunksAux t4.leaves 0 (List.replicate 100 0)) := by
  constructor
  · obtain ⟨t1, he1, hL1, hF1, hwc1, hlt1, -, -, -⟩ :=
      Write_clean_result NewFixedMerkleTree (List.replicate 65536 0) rfl rfl rfl (by decide)
    obtain ⟨t2, he2, hL2, hF2, hwc2, hlt2, -, -, -⟩ :=
      Write_clean_result t1 (List.replicate 100 0) hL1 hF1 hwc1 hlt1
    obtain ⟨t3, he3, -, -, -, -, -, -, -⟩ :=
      Write_clean_result t2 (List.replicate 7 0) hL2 hF2 hwc2 hlt2
    rw [List.length_replicate] at he1 he2 he3
    exact ⟨t1, t2, t3, he1, he2, he3⟩
  · obtain ⟨t4, he4, hL4, hF4, hwc4, hlt4, hlv4, hwb4, -⟩ :=
      Write_clean_result NewFixedMerkleTree (List.replicate 65636 0) rfl rfl rfl (by decide)
    have habs : absorb NewFixedMerkleTree.leaves
        (NewFixedMerkleTree.writeBytes ++ List.replicate 65636 0) =
        (writeChunksAux initLeaves 0 ((List.replicate 65636 0).take MaxMerkleLeavesSize),
          (List.replicate 65636 0).drop MaxMerkleLeavesSize) := by
      rw [show NewFixedMerkleTree.writeBytes = [] from rfl, List.nil_append,
        show NewFixedMerkleTree.leaves = initLeaves from rfl]
      exact absorb_one_window _ _ (by rw [List.length_replicate]; decide)
        (by rw [List.length_replicate]; decide)
    have hdrop : (List.replicate 65636 (0 : Nat)).drop MaxMerkleLeavesSize =
        List.replicate 100 0 := by
      rw [show MaxMerkleLeavesSize = 65536 from rfl]
      rw [List.drop_replicate]
    have hwb : t4.writeBytes = List.replicate 100 0 := by
      rw [hwb4, habs, hdrop]
    have hwc : t4.writeCount = 100 := by
      rw [hwc4, hwb, List.length_replicate]
    have hfin := Finalize_clean_pos t4 hL4 hF4 (by omega) hwc4 hlt4
    rw [List.length_replicate] at he4
    refine ⟨t4, _, he4, hwc, hwb, hfin, rfl, ?_⟩
    show writeChunksAux t4.leaves 0 t4.writeBytes =
      writeChunksAux t4.leaves 0 (List.replicate 100 0)
    rw [hwb]

/-- C5 counterexample: re-hydrating a previously used tree that still has one
staged byte folds that stale byte into the dispatched window, so leaf 0's
digest differs from that of a fresh tree fed the same 65536 bytes; `Reload`
does not restore the claimed fresh-equivalent state for every used tree. -/
theorem c5_counterexample :
    ((Write NewFixedMerkleTree [7]).bind fun p =>
      (Reload p.1 (List.replicate 65536 0)).map fun q =>
        GetHashBytes (fun x => x) (q.1.leaves.getD 0 [])) ≠
    ((Write NewFixedMerkleTree (List.replicate 65536 0)).map fun p =>
      GetHashBytes (fun x => x) (p.1.leaves.getD 0 [])) := by
  obtain ⟨t1, he1, hL1, hF1, hwc1, hlt1, hlv1, hwb1, -⟩ :=
    Write_clean_result NewFixedMerkleTree [7] rfl rfl rfl (by decide)
  have h7 : absorb NewFixedMerkleTree.leaves (NewFixedMerkleTree.writeBytes ++ [7]) =
      (initLeaves, [7]) := by
    rw [show NewFixedMerkleTree.writeBytes = [] from rfl, List.nil_append,
      show NewFixedMerkleTree.leaves = initLeaves from rfl]
    exact absorb_small _ _ (by decide)
  have hwb1' : t1.writeBytes = [7] := by rw [hwb1, h7]
  have hrel := Reload_clean (List.replicate 65536 0) t1 hL1 hF1 hwc1 hlt1
  have habs2 : absorb initLeaves ([7] ++ List.replicate 65536 0) =
      (writeChunksAux initLeaves 0 (([7] ++ List.replicate 65536 0).take MaxMerkleLeavesSize),
        ([7] ++ List.replicate 65536 0).drop MaxMerkleLeavesSize) :=
    absorb_one_window _ _
      (by rw [List.length_append, List.length_replicate]; decide)
      (by rw [List.length_append, List.length_replicate]; decide)
  have hleaf_L : (writeChunksAux initLeaves 0
      (([7] ++ List.replicate 65536 0).take MaxMerkleLeavesSize)).getD 0 [] =
      7 :: List.replicate 63 0 := by
    rw [writeChunksAux_getD_zero _ _ (by rw [initLeaves_length]; decide),
      initLeaves_getD_zero, List.nil_append]
    rw [List.take_take]
    rw [show min MerkleChunkSize MaxMerkleLeavesSize = 64 from by decide]
    rw [show ([7] ++ List.replicate 65536 (0 : Nat)) = 7 :: List.replicate 65536 0 from rfl]
    rw [show (64 : Nat) = 63 + 1 from rfl, List.take_succ_cons]
    rw [List.take_replicate]
    rw [show (63 : Nat) ⊓ 65536 = 63 from by omega]
  have hA : ((Write NewFixedMerkleTree [7]).bind fun p =>
      (Reload p.1 (List.replicate 65536 0)).map fun q =>
        GetHashBytes (fun x => x) (q.1.leaves.getD 0 [])) =
      some (7 :: List.replicate 63 0) := by
    rw [he1, Option.some_bind]
    dsimp only
    rw [hrel, Option.map_some']
    dsimp only
    rw [hwb1', habs2]
    dsimp only
    rw [hleaf_L]
    rfl
  obtain ⟨s1, hes, -, -, -, -, hlvs, -, -⟩ :=
    Write_clean_result NewFixedMerkleTree (List.replicate 65536 0) rfl rfl rfl (by decide)
  have habs3 : absorb NewFixedMerkleTree.leaves
      (NewFixedMerkleTree.writeBytes ++ List.replicate 65536 0) =
      (writeChunksAux initLeaves 0 (List.replicate 65536 0), []) := by
    rw [show NewFixedMerkleTree.writeBytes = [] from rfl, List.nil_append,
      show NewFixedMerkleTree.leaves = initLeaves from rfl]
    exact absorb_exact _ _ (by rw [List.length_replicate]; rfl)
  have hleaf_R : (writeChunksAux initLeaves 0 (List.replicate 65536 0)).getD 0 [] =
      List.replicate 64 0 := by
    rw [writeChunksAux_getD_zero _ _ (by rw [initLeaves_length]; decide),
      initLeaves_getD_zero, List.nil_append]
    rw [List.take_replicate]
    rw [show MerkleChunkSize ⊓ 65536 = 64 from by decide]
  have hB : ((Write NewFixedMerkleTree (List.replicate 65536 0)).map fun p =>
      GetHashBytes (fun x => x) (p.1.leaves.getD 0 [])) =
      some (List.replicate 64 0) := by
    rw [hes, Option.map_some']
    dsimp only
    rw [hlvs, habs3]
    dsimp only
    rw [hleaf_R]
    rfl
  have hne : (7 :: List.replicate 63 (0 : Nat)) ≠ List.replicate 64 0 := by
    rw [show (64 : Nat) = 63 + 1 from rfl, List.replicate_succ]
    simp
  intro heq
  rw [hA, hB] at heq
  exact hne (Option.some.inj heq)

/-- C5 amended: for a tree that is not finalized and has no staged bytes (in
particular a fresh tree), `Reload` resets the leaves and streams the source
through `Write` in up-to-window-size reads, succeeding and ending with exactly
the leaf state of a fresh tree fed the same bytes; and re-hydrating a fresh
tree from a 65536-byte all-zero stream yields a root string bit-identical to
the write-then-finalize root of the same stream. -/
theorem c5_reload_fresh_equiv (lh : List Nat → List Nat)
    (mh : List Nat → List Nat → List Nat) (t : FMTState) (source : List Nat)
    (hL : t.lockHeld = false) (hF : t.isFinal = false)
    (hwc : t.writeCount = 0) (hwb : t.writeBytes = []) :
    (∃ p q, Write NewFixedMerkleTree source = some p ∧ p.2 = .ok source.length ∧
      Reload t source = some q ∧ q.2 = .ok () ∧ q.1.leaves = p.1.leaves) ∧
    ((Write NewFixedMerkleTree (List.replicate 65536 0)).bind fun p =>
        (Finalize p.1).map fun q => (GetMerkleRoot lh mh q.1).2) =
      ((Reload NewFixedMerkleTree (List.replicate 65536 0)).map fun q =>
        (GetMerkleRoot lh mh q.1).2) := by
  constructor
  · have hw := Write_clean NewFixedMerkleTree source rfl rfl rfl (by decide)
    have hr := Reload_clean source t hL hF (by rw [hwc, hwb]; rfl) (by rw [hwb]; decide)
    refine ⟨_, _, hw, rfl, hr, rfl, ?_⟩
    show (absorb initLeaves (t.writeBytes ++ source)).1 =
      (absorb NewFixedMerkleTree.leaves (NewFixedMerkleTree.writeBytes ++ source)).1
    rw [hwb]
    rfl
  · obtain ⟨t1, he1, hL1, hF1, hwc1, hlt1, hlv1, hwb1, hmr1⟩ :=
      Write_clean_result NewFixedMerkleTree (List.replicate 65536 0) rfl rfl rfl (by decide)
    have habs : absorb NewFixedMerkleTree.leaves
        (NewFixedMerkleTree.writeBytes ++ List.replicate 65536 0) =
        (writeChunksAux initLeaves 0 (List.replicate 65536 0), []) := by
      rw [show NewFixedMerkleTree.writeBytes = [] from rfl, List.nil_append,
        show NewFixedMerkleTree.leaves = initLeaves from rfl]
      exact absorb_exact _ _ (by rw [List.length_replicate]; rfl)
    have habsR : absorb initLeaves
        (NewFixedMerkleTree.writeBytes ++ List.replicate 65536 0) =
        (writeChunksAux initLeaves 0 (List.replicate 65536 0), []) := by
      rw [show NewFixedMerkleTree.writeBytes = [] from rfl, List.nil_append]
      exact absorb_exact _ _ (by rw [List.length_replicate]; rfl)
    have hwb1' : t1.writeBytes = [] := by rw [hwb1, habs]
    have hwc1' : t1.writeCount = 0 := by rw [hwc1, hwb1']; rfl
    have hfin := Finalize_clean_zero t1 hL1 hF1 hwc1'
    rw [he1, Option.some_bind]
    dsimp only
    rw [hfin, Option.map_some']
    dsimp only
    have hmr : ({ t1 with isFinal := true } : FMTState).merkleRoot = none := by
      show t1.merkleRoot = none
      rw [hmr1]
      rfl
    rw [GetMerkleRoot_none lh mh _ hmr]
    obtain ⟨q, hq, hqlv, hqmr, -, -, -, -⟩ :=
      Reload_clean_result (List.replicate 65536 0) NewFixedMerkleTree rfl rfl rfl (by decide)
    rw [hq, Option.map_some']
    dsimp only
    rw [GetMerkleRoot_none lh mh q hqmr]
    dsimp only
    have hlv1' : t1.leaves = writeChunksAux initLeaves 0 (List.replicate 65536 0) := by
      rw [hlv1, habs]
    have hqlv' : q.leaves = writeChunksAux initLeaves 0 (List.replicate 65536 0) := by
      rw [hqlv, habsR]
    rw [hlv1', hqlv']

/-- Witness for the amended C5 at a fresh tree and the source `[1, 2]`. -/
theorem c5_witness :
    (∃ p q, Write NewFixedMerkleTree [1, 2] = some p ∧ p.2 = .ok 2 ∧
      Reload NewFixedMerkleTree [1, 2] = some q ∧ q.2 = .ok () ∧
      q.1.leaves = p.1.leaves) ∧
    ((Write NewFixedMerkleTree (List.replicate 65536 0)).bind fun p =>
        (Finalize p.1).map fun q => (GetMerkleRoot (fun x => x) pairTag q.1).2) =
      ((Reload NewFixedMerkleTree (List.replicate 65536 0)).map fun q =>
        (GetMerkleRoot (fun x => x) pairTag q.1).2) :=
  c5_reload_fresh_equiv (fun x => x) pairTag NewFixedMerkleTree [1, 2] rfl rfl rfl rfl

end FMT
